import Mathlib

/-!
Verification of the Lorentz-transform and field-visualizer modules of the
MUHAMMAD-FITRI-BIN-FADZLEE repository.  The numerical engine of the source
(`src/lorentz.js`, `src/fields.js`, `src/unnamed/part_000`,
`src/unnamed/part_002`) is embedded shallowly over the real numbers:
floating-point arithmetic is modelled by exact real arithmetic, so the
floating-point tolerances of the specification become exact identities.
-/

namespace Spec2Proof

/-! ### Lorentz module data model (src/lorentz.js) -/

/-- Spacetime event of the Minkowski module: position `x` and time
coordinate `ct` in the same length units (src/lorentz.js, events list of
the spacetime explorer, lines 455-458). -/
structure SpacetimeEvent where
  x : ℝ
  ct : ℝ

/-- Lorentz factor computed from β exactly as the source does
(`gamma = 1 / Math.sqrt(1 - beta * beta)`, src/lorentz.js lines 6, 58,
732). -/
noncomputable def gammaOf (beta : ℝ) : ℝ := 1 / Real.sqrt (1 - beta * beta)

/-- Event transformation of the Minkowski module (src/lorentz.js
`drawTransformedFrame` lines 620-621 and `updateInfo` lines 845-846):
xPrime = gamma * (x - beta * ct), ctPrime = gamma * (ct - beta * x).
The spacetime-diagram path at lines 363-364 computes the same expressions
with the stored `t` playing the role of `ct`. -/
noncomputable def lorentzEvent (beta : ℝ) (e : SpacetimeEvent) : SpacetimeEvent :=
  { x := gammaOf beta * (e.x - beta * e.ct)
    ct := gammaOf beta * (e.ct - beta * e.x) }

/-- Speed of light constant of the source (`c = 299792458`, src/lorentz.js
line 4, src/fields.js line 42). -/
def cLight : ℝ := 299792458

/-- Coordinate transformation of the Lorentz calculator
(src/lorentz.js `calculateTransformation` lines 221-222, repeated at
lines 275-276): xPrime = gamma * (x - beta * c * t),
tPrime = gamma * (t - (beta / c) * x). -/
noncomputable def calculateTransformation (beta x t : ℝ) : ℝ × ℝ :=
  (gammaOf beta * (x - beta * cLight * t),
   gammaOf beta * (t - (beta / cLight) * x))

/-- Spacetime interval of the Minkowski module (src/lorentz.js
`calculateInterval` lines 800-807): for a list with at least two events,
dx * dx - dct * dct on the first two; otherwise 0. -/
def calculateInterval (events : List SpacetimeEvent) : ℝ :=
  match events with
  | e0 :: e1 :: _ =>
      (e1.x - e0.x) * (e1.x - e0.x) - (e1.ct - e0.ct) * (e1.ct - e0.ct)
  | _ => 0

/-- Interval classification outcomes of the source (src/lorentz.js
`updateInfo` lines 815-828). -/
inductive IntervalType where
  | Timelike
  | Spacelike
  | Lightlike
deriving DecidableEq, Repr

/-- Interval classifier of the source (src/lorentz.js `updateInfo`
lines 817-826): `interval < 0` gives Timelike, else `interval > 0` gives
Spacelike, else Lightlike. -/
noncomputable def classifyInterval (interval : ℝ) : IntervalType :=
  if interval < 0 then IntervalType.Timelike
  else if 0 < interval then IntervalType.Spacelike
  else IntervalType.Lightlike

/-! ### Basic facts about the Lorentz factor -/

/-- For |β| < 1 the quantity 1 - β·β is positive. -/
lemma one_sub_mul_self_pos {beta : ℝ} (h : |beta| < 1) : 0 < 1 - beta * beta := by
  have h1 := abs_lt.mp h
  nlinarith [h1.1, h1.2]

/-- The defining algebraic identity of the Lorentz factor:
γ·γ·(1 - β·β) = 1 for |β| < 1. -/
lemma gamma_mul_self {beta : ℝ} (h : |beta| < 1) :
    gammaOf beta * gammaOf beta * (1 - beta * beta) = 1 := by
  have hs : 0 < 1 - beta * beta := one_sub_mul_self_pos h
  unfold gammaOf
  rw [div_mul_div_comm, one_mul, Real.mul_self_sqrt hs.le]
  field_simp

/-- The Lorentz factor is even in β. -/
lemma gammaOf_neg (beta : ℝ) : gammaOf (-beta) = gammaOf beta := by
  unfold gammaOf
  rw [neg_mul_neg]

/-- C1: for every pair of events and every velocity β with |β| < 1, the
spacetime interval computed from the Lorentz-transformed coordinates
equals the interval computed from the original coordinates, and therefore
the Timelike/Spacelike/Lightlike classification of the event pair is the
same in both frames.  In particular (see the witness) for β = 0.9 and
events A = (0,0), B = (3,1) with Δs² = 8 > 0 the classification is
Spacelike in every frame. -/
theorem interval_invariant (beta : ℝ) (h : |beta| < 1)
    (a b : SpacetimeEvent) (rest : List SpacetimeEvent) :
    calculateInterval ((a :: b :: rest).map (lorentzEvent beta)) =
      calculateInterval (a :: b :: rest) ∧
    classifyInterval (calculateInterval ((a :: b :: rest).map (lorentzEvent beta))) =
      classifyInterval (calculateInterval (a :: b :: rest)) := by
  have key := gamma_mul_self h
  have hint : calculateInterval ((a :: b :: rest).map (lorentzEvent beta)) =
      calculateInterval (a :: b :: rest) := by
    simp only [List.map_cons, calculateInterval, lorentzEvent]
    linear_combination ((b.x - a.x) * (b.x - a.x) - (b.ct - a.ct) * (b.ct - a.ct)) * key
  exact ⟨hint, by rw [hint]⟩

/-- Witness for C1: the concrete instance β = 0.9, A = (0,0), B = (3,1)
from the specification. -/
theorem interval_invariant_witness :
    |(0.9 : ℝ)| < 1 ∧
    (calculateInterval (([⟨0, 0⟩, ⟨3, 1⟩] : List SpacetimeEvent).map (lorentzEvent 0.9)) =
      calculateInterval ([⟨0, 0⟩, ⟨3, 1⟩] : List SpacetimeEvent) ∧
     classifyInterval (calculateInterval (([⟨0, 0⟩, ⟨3, 1⟩] :
        List SpacetimeEvent).map (lorentzEvent 0.9))) =
      classifyInterval (calculateInterval ([⟨0, 0⟩, ⟨3, 1⟩] : List SpacetimeEvent))) :=
  ⟨by rw [abs_lt]; norm_num,
   interval_invariant 0.9 (by rw [abs_lt]; norm_num) ⟨0, 0⟩ ⟨3, 1⟩ []⟩

/-- Speed of light is nonzero, needed to simplify `beta / c * x * c`. -/
lemma cLight_ne_zero : cLight ≠ 0 := by
  unfold cLight
  norm_num

/-- C2: applying the frame transformation with β and then with −β returns
the original event exactly, for every |β| < 1 — both for the Minkowski
event transform (x, ct coordinates) and for the Lorentz-calculator
transform (x, t coordinates with the physical speed of light). -/
theorem transform_roundtrip (beta : ℝ) (h : |beta| < 1)
    (e : SpacetimeEvent) (x t : ℝ) :
    lorentzEvent (-beta) (lorentzEvent beta e) = e ∧
    calculateTransformation (-beta)
      (calculateTransformation beta x t).1 (calculateTransformation beta x t).2 = (x, t) := by
  have key := gamma_mul_self h
  have hc := cLight_ne_zero
  refine ⟨?_, ?_⟩
  · simp only [lorentzEvent, gammaOf_neg]
    cases e with
    | mk ex ect =>
      simp only [SpacetimeEvent.mk.injEq]
      constructor
      · linear_combination ex * key
      · linear_combination ect * key
  · simp only [calculateTransformation, gammaOf_neg, Prod.mk.injEq]
    constructor
    · field_simp
      linear_combination (x * cLight) * key
    · field_simp
      linear_combination (t * cLight) * key

/-- Witness for C2: the concrete instance of the specification, event
(x = 5, ct = 2) with β = 0.6, recovers (5, 2) exactly. -/
theorem transform_roundtrip_witness :
    |(0.6 : ℝ)| < 1 ∧
    lorentzEvent (-0.6) (lorentzEvent 0.6 ⟨5, 2⟩) = (⟨5, 2⟩ : SpacetimeEvent) :=
  ⟨by rw [abs_lt]; norm_num,
   (transform_roundtrip 0.6 (by rw [abs_lt]; norm_num) ⟨5, 2⟩ 5 2).1⟩

/-- Modelled from the spec: the transform exactly as section 4.3 words it,
x' = γ(x − β·ct) and ct' = γ(ct − β·x), for comparison with the code
paths. -/
noncomputable def specLorentz (beta x ct : ℝ) : ℝ × ℝ :=
  (gammaOf beta * (x - beta * ct), gammaOf beta * (ct - beta * x))

/-- C3: every code path that transforms an event computes the spec's
function of (x, ct, β).  The Minkowski-module paths (drawTransformedFrame,
updateInfo, and drawSpacetimeDiagram with its stored t as ct) compute it
directly; the Lorentz-calculator path (calculateTransformation) computes it
with ct = c·t: its x output equals the spec transform of (x, c·t), and c
times its t output equals the spec's ct output. -/
theorem transform_refines_spec (beta x t : ℝ) (e : SpacetimeEvent) :
    ((lorentzEvent beta e).x, (lorentzEvent beta e).ct) = specLorentz beta e.x e.ct ∧
    (calculateTransformation beta x t).1 = (specLorentz beta x (cLight * t)).1 ∧
    cLight * (calculateTransformation beta x t).2 = (specLorentz beta x (cLight * t)).2 := by
  have hc := cLight_ne_zero
  refine ⟨rfl, ?_, ?_⟩
  · simp only [calculateTransformation, specLorentz]
    ring
  · simp only [calculateTransformation, specLorentz]
    field_simp
    exact Or.inl (mul_comm t cLight)

/-- C7 counterexample: the classifier has no tolerance band around zero.
The value 10⁻¹⁰ is within the specification's floating tolerance 10⁻⁹ of
zero and is nonzero, yet it is classified Spacelike, not Lightlike. -/
theorem classify_no_tolerance :
    |(1 / 10 ^ 10 : ℝ)| < 1 / 10 ^ 9 ∧ (1 / 10 ^ 10 : ℝ) ≠ 0 ∧
    classifyInterval (1 / 10 ^ 10) = IntervalType.Spacelike ∧
    classifyInterval (1 / 10 ^ 10) ≠ IntervalType.Lightlike := by
  have hval : classifyInterval (1 / 10 ^ 10) = IntervalType.Spacelike := by
    unfold classifyInterval
    rw [if_neg (by norm_num), if_pos (by norm_num)]
  refine ⟨by rw [abs_lt]; norm_num, by norm_num, hval, ?_⟩
  rw [hval]
  exact fun hcontra => IntervalType.noConfusion hcontra

/-- C7 amended: the classifier maps Δs² > 0 to Spacelike, Δs² < 0 to
Timelike, and exactly Δs² = 0 (not a tolerance band) to Lightlike;
Lightlike is returned precisely on zero. -/
theorem classify_by_sign (s : ℝ) :
    (s < 0 → classifyInterval s = IntervalType.Timelike) ∧
    (0 < s → classifyInterval s = IntervalType.Spacelike) ∧
    (s = 0 → classifyInterval s = IntervalType.Lightlike) ∧
    (classifyInterval s = IntervalType.Lightlike ↔ s = 0) := by
  unfold classifyInterval
  refine ⟨fun hneg => by rw [if_pos hneg], fun hpos => ?_, fun hzero => ?_, ?_⟩
  · rw [if_neg (by linarith), if_pos hpos]
  · rw [if_neg (by simp [hzero]), if_neg (by simp [hzero])]
  · constructor
    · intro hl
      by_contra hne
      rcases lt_or_gt_of_ne hne with hlt | hgt
      · rw [if_pos hlt] at hl
        exact IntervalType.noConfusion hl
      · rw [if_neg (by linarith), if_pos hgt] at hl
        exact IntervalType.noConfusion hl
    · intro hzero
      rw [if_neg (by simp [hzero]), if_neg (by simp [hzero])]

/-- Witness for C7's amended theorem at representatives of each sign. -/
theorem classify_by_sign_witness :
    classifyInterval (-3) = IntervalType.Timelike ∧
    classifyInterval 8 = IntervalType.Spacelike ∧
    classifyInterval 0 = IntervalType.Lightlike :=
  ⟨(classify_by_sign (-3)).1 (by norm_num),
   (classify_by_sign 8).2.1 (by norm_num),
   (classify_by_sign 0).2.2.1 rfl⟩

/-! ### Velocity input clamping (src/lorentz.js and src/fields.js) -/

/-- Direct beta input handler of the Lorentz calculator (src/lorentz.js
lines 69-75): a value with |β| ≥ 1 is replaced by 0.99 · sign(β) before
being stored. -/
noncomputable def betaInputUpdate (v : ℝ) : ℝ :=
  if 1 ≤ |v| then 0.99 * Real.sign v else v

/-- Direct velocity input handler of the field visualizer (src/fields.js
lines 986-991): same clamping rule as the Lorentz calculator. -/
noncomputable def velocityInputUpdate (v : ℝ) : ℝ :=
  if 1 ≤ |v| then 0.99 * Real.sign v else v

/-- Clamped values stay strictly inside the unit interval. -/
lemma clamp_abs_lt_one (v : ℝ) : |if 1 ≤ |v| then 0.99 * Real.sign v else v| < 1 := by
  split_ifs with hv
  · rcases lt_trichotomy v 0 with hneg | hzero | hpos
    · rw [Real.sign_of_neg hneg]
      rw [mul_neg_one, abs_neg, abs_of_nonneg (by norm_num)]
      norm_num
    · exfalso
      rw [hzero] at hv
      norm_num at hv
    · rw [Real.sign_of_pos hpos]
      rw [mul_one, abs_of_nonneg (by norm_num)]
      norm_num
  · linarith [not_le.mp hv]

/-- C9: every velocity accepted by the direct-input handlers is stored
with |β| < 1 strictly (values with |β| ≥ 1 are clamped to 0.99·sign β),
so 1 - β² stays positive and the Lorentz factor computed from the stored
β is finite and positive. -/
theorem velocity_clamped (v : ℝ) :
    |betaInputUpdate v| < 1 ∧ |velocityInputUpdate v| < 1 ∧
    0 < 1 - betaInputUpdate v * betaInputUpdate v ∧
    0 < gammaOf (betaInputUpdate v) ∧
    0 < gammaOf (velocityInputUpdate v) := by
  have hb : |betaInputUpdate v| < 1 := clamp_abs_lt_one v
  have hw : |velocityInputUpdate v| < 1 := clamp_abs_lt_one v
  have hgb : 0 < 1 - betaInputUpdate v * betaInputUpdate v := one_sub_mul_self_pos hb
  have hgw : 0 < 1 - velocityInputUpdate v * velocityInputUpdate v := one_sub_mul_self_pos hw
  refine ⟨hb, hw, hgb, ?_, ?_⟩
  · exact one_div_pos.mpr (Real.sqrt_pos.mpr hgb)
  · exact one_div_pos.mpr (Real.sqrt_pos.mpr hgw)

/-! ### Minkowski-module events list (src/lorentz.js, spacetime explorer) -/

/-- Initial events of the Minkowski module (src/lorentz.js lines 455-458):
exactly two events A = (2,3) and B = (4,1); only the coordinates are
modelled. -/
def initialEvents : List SpacetimeEvent := [⟨2, 3⟩, ⟨4, 1⟩]

/-- Add-event handler (src/lorentz.js lines 750-762): a new event is
appended only while fewer than five events exist. -/
def addEvent (es : List SpacetimeEvent) (e : SpacetimeEvent) : List SpacetimeEvent :=
  if es.length < 5 then es ++ [e] else es

/-- Clear-events handler (src/lorentz.js lines 765-768):
`events = events.slice(0, 2)` keeps only the first two events. -/
def clearEvents (es : List SpacetimeEvent) : List SpacetimeEvent := es.take 2

/-- Update-events handler (src/lorentz.js lines 741-747): overwrites the
coordinates of the first two events, leaving the rest untouched. -/
def updateEvents (es : List SpacetimeEvent) (ax act bx bct : ℝ) : List SpacetimeEvent :=
  match es with
  | _ :: _ :: rest => ⟨ax, act⟩ :: ⟨bx, bct⟩ :: rest
  | other => other

/-- C10: the Minkowski module starts with exactly two events; add-event
keeps the count within [2,5], appends at the end (so the first two
events are untouched) and does nothing once five events exist;
clear-events truncates to exactly the first two; update-events rewrites
coordinates without changing the count.  Hence 2 ≤ events.length ≤ 5 is
preserved by every operation and the first two events are never removed. -/
theorem events_invariant :
    initialEvents.length = 2 ∧
    (∀ (es : List SpacetimeEvent) (e : SpacetimeEvent),
      2 ≤ es.length → es.length ≤ 5 →
      2 ≤ (addEvent es e).length ∧ (addEvent es e).length ≤ 5 ∧
      (addEvent es e).take 2 = es.take 2) ∧
    (∀ (es : List SpacetimeEvent) (e : SpacetimeEvent),
      es.length = 5 → addEvent es e = es) ∧
    (∀ es : List SpacetimeEvent, 2 ≤ es.length →
      (clearEvents es).length = 2 ∧ (clearEvents es).take 2 = es.take 2) ∧
    (∀ (es : List SpacetimeEvent) (ax act bx bct : ℝ),
      (updateEvents es ax act bx bct).length = es.length) := by
  refine ⟨rfl, ?_, ?_, ?_, ?_⟩
  · intro es e h2 h5
    unfold addEvent
    split_ifs with hlt
    · refine ⟨?_, ?_, ?_⟩
      · rw [List.length_append]
        omega
      · rw [List.length_append]
        simpa using Nat.succ_le_of_lt hlt
      · rw [List.take_append_of_le_length h2]
    · exact ⟨h2, h5, rfl⟩
  · intro es e h5
    unfold addEvent
    rw [if_neg (by omega)]
  · intro es h2
    refine ⟨?_, ?_⟩
    · unfold clearEvents
      rw [List.length_take]
      omega
    · unfold clearEvents
      rw [List.take_take, min_self]
  · intro es ax act bx bct
    unfold updateEvents
    match es with
    | [] => rfl
    | [a] => rfl
    | a :: b :: rest => rfl

/-- Witness for C10 at the initial configuration. -/
theorem events_invariant_witness :
    2 ≤ (addEvent initialEvents ⟨0, 0⟩).length ∧
    (addEvent initialEvents ⟨0, 0⟩).length ≤ 5 ∧
    (addEvent initialEvents ⟨0, 0⟩).take 2 = initialEvents.take 2 ∧
    (clearEvents initialEvents).length = 2 := by
  obtain ⟨-, hadd, -, hclear, -⟩ := events_invariant
  have ha := hadd initialEvents ⟨0, 0⟩ (by norm_num [initialEvents]) (by norm_num [initialEvents])
  exact ⟨ha.1, ha.2.1, ha.2.2, (hclear initialEvents (by norm_num [initialEvents])).1⟩

/-! ### Field evaluator (src/unnamed/part_000, src/fields.js, src/unnamed/part_002) -/

/-- Point charge record as used by `calculateElectricFieldAtPoint`
(src/unnamed/part_000: loose literals of shape x, y, q). -/
structure PointCharge where
  x : ℝ
  y : ℝ
  q : ℝ

/-- Contribution of a single charge inside the accumulation loop of
`calculateElectricFieldAtPoint` (src/unnamed/part_000 lines 954-963):
q·dx/r³ and q·dy/r³, skipped when r³ is not above 0.001. -/
noncomputable def chargeContribution (px py : ℝ) (ch : PointCharge) : ℝ × ℝ :=
  let dx := px - ch.x
  let dy := py - ch.y
  let r := Real.sqrt (dx * dx + dy * dy)
  let r3 := r * r * r
  if 0.001 < r3 then (ch.q * dx / r3, ch.q * dy / r3) else (0, 0)

/-- Electric field evaluator (src/unnamed/part_000 lines 951-967): sums
the per-charge contributions starting from (0, 0). -/
noncomputable def calculateElectricFieldAtPoint (px py : ℝ) (charges : List PointCharge) : ℝ × ℝ :=
  charges.foldl
    (fun acc ch =>
      (acc.1 + (chargeContribution px py ch).1, acc.2 + (chargeContribution px py ch).2))
    (0, 0)

/-- Accumulating from (a, b) is the same as accumulating from (0, 0) and
shifting by (a, b). -/
lemma field_foldl_shift (px py a b : ℝ) (charges : List PointCharge) :
    charges.foldl
      (fun acc ch =>
        (acc.1 + (chargeContribution px py ch).1, acc.2 + (chargeContribution px py ch).2))
      (a, b) =
    (a + (calculateElectricFieldAtPoint px py charges).1,
     b + (calculateElectricFieldAtPoint px py charges).2) := by
  unfold calculateElectricFieldAtPoint
  induction charges generalizing a b with
  | nil => simp
  | cons ch rest ih =>
      simp only [List.foldl_cons]
      rw [ih (a + (chargeContribution px py ch).1) (b + (chargeContribution px py ch).2),
        ih (0 + (chargeContribution px py ch).1) (0 + (chargeContribution px py ch).2)]
      simp only [Prod.mk.injEq]
      constructor <;> ring

/-- C6: the electric-field evaluator is additive in the charge
configuration — the field of a concatenated configuration A ++ B at any
query point is the componentwise vector sum of the fields of A and of B
evaluated independently at that point (so in particular a two-charge
field is the sum of the single-charge fields, at every query point). -/
theorem field_superposition (px py : ℝ) (A B : List PointCharge) :
    calculateElectricFieldAtPoint px py (A ++ B) =
      ((calculateElectricFieldAtPoint px py A).1 + (calculateElectricFieldAtPoint px py B).1,
       (calculateElectricFieldAtPoint px py A).2 + (calculateElectricFieldAtPoint px py B).2) := by
  unfold calculateElectricFieldAtPoint
  rw [List.foldl_append]
  have h := field_foldl_shift px py
    (List.foldl (fun acc ch =>
      (acc.1 + (chargeContribution px py ch).1, acc.2 + (chargeContribution px py ch).2))
      (0, 0) A).1
    (List.foldl (fun acc ch =>
      (acc.1 + (chargeContribution px py ch).1, acc.2 + (chargeContribution px py ch).2))
      (0, 0) A).2 B
  unfold calculateElectricFieldAtPoint at h
  rw [← h]

/-! ### Magnetic field at rest and below the velocity threshold -/

/-- Magnetic constant of the source (`mu0 = 4 * Math.PI * 1e-7`,
src/fields.js line 40, src/unnamed/part_002 line 34). -/
noncomputable def mu0 : ℝ := 4 * Real.pi * 1e-7

/-- Elementary charge constant of the source (src/fields.js line 38). -/
def elemCharge : ℝ := 1.602176634e-19

/-- Numeric B readout of the field visualizer (src/fields.js
`updateFieldInfo` lines 1139-1150, stationary/moving branch): bField
stays 0 unless velocity > 0, in which case it is
(mu0/(4π))·|charge·e|·velocity·c/(r·r). -/
noncomputable def updateFieldInfoB (charge velocity r : ℝ) : ℝ :=
  if 0 < velocity then
    mu0 / (4 * Real.pi) * |charge * elemCharge| * velocity * cLight / (r * r)
  else 0

/-- Magnetic-field drawing routine of src/unnamed/part_002
(`drawMagneticField` lines 333-340): returns without drawing anything
when velocity < 0.01; otherwise draws circles with strength
(mu0/(4π))·|charge|·velocity·c/25. -/
noncomputable def drawMagneticFieldB (charge velocity : ℝ) : Option ℝ :=
  if velocity < 0.01 then none
  else some (mu0 / (4 * Real.pi) * |charge| * velocity * cLight / 25)

/-- C5 counterexample: below the 0.01 threshold the numeric magnetic
readout is not zero — at velocity 1/200 (< 0.01) with unit charge at the
reference distance the computed B is strictly positive. -/
theorem small_velocity_nonzero_B :
    (0 : ℝ) < 1 / 200 ∧ (1 / 200 : ℝ) < 0.01 ∧
    updateFieldInfoB 1 (1 / 200) 1 ≠ 0 := by
  refine ⟨by norm_num, by norm_num, ?_⟩
  unfold updateFieldInfoB
  rw [if_pos (by norm_num)]
  have hpi := Real.pi_pos
  have hpos : 0 < mu0 / (4 * Real.pi) * |(1 : ℝ) * elemCharge| * (1 / 200) * cLight / (1 * 1) := by
    unfold mu0 elemCharge cLight
    have habs : |(1 : ℝ) * 1.602176634e-19| = 1.602176634e-19 := by
      rw [abs_of_nonneg] <;> norm_num
    rw [habs]
    positivity
  exact hpos.ne'

/-- C5 amended: with all charge velocities zero the computed B is zero
(updateFieldInfoB returns 0), and the drawing routine treats any
velocity below the 0.01 threshold as stationary (draws nothing); but the
numeric readout updateFieldInfoB is nonzero for every 0 < velocity <
0.01 (see the counterexample). -/
theorem magnetic_zero_at_rest (charge v r : ℝ) :
    updateFieldInfoB charge 0 r = 0 ∧
    (v < 0.01 → drawMagneticFieldB charge v = none) := by
  constructor
  · unfold updateFieldInfoB
    rw [if_neg (lt_irrefl 0)]
  · intro hv
    unfold drawMagneticFieldB
    rw [if_pos hv]

/-- Witness for C5's amended theorem at charge 1, velocity 1/300,
reference distance 1. -/
theorem magnetic_zero_at_rest_witness :
    updateFieldInfoB 1 0 1 = 0 ∧ drawMagneticFieldB 1 (1 / 300) = none :=
  ⟨(magnetic_zero_at_rest 1 (1 / 300) 1).1,
   (magnetic_zero_at_rest 1 (1 / 300) 1).2 (by norm_num)⟩

/-! ### Relativistic scaling of the drawn electric field -/

/-- Truncation toward zero, as used by the JavaScript remainder
operator. -/
noncomputable def truncR (x : ℝ) : ℤ := if 0 ≤ x then ⌊x⌋ else ⌈x⌉

/-- JavaScript remainder a % b (remainder of truncated division, sign of
the dividend). -/
noncomputable def jsRem (a b : ℝ) : ℝ := a - b * truncR (a / b)

/-- Math.atan2(y, x). -/
noncomputable def atan2 (y x : ℝ) : ℝ :=
  if 0 < x then Real.arctan (y / x)
  else if x = 0 then
    (if 0 < y then Real.pi / 2 else if y < 0 then -(Real.pi / 2) else 0)
  else if 0 ≤ y then Real.arctan (y / x) + Real.pi
  else Real.arctan (y / x) - Real.pi

/-- Field expression of src/fields.js `drawFieldLine` lines 696-713 as a
function of the displacement (dx, dy) from the line start: the raw
inverse-square components dx/r², dy/r² with r floored at 15, both scaled
by γ when the charge moves (velocity > 0, γ > 1) and the direction angle
satisfies |atan2(dy,dx) % π| > π/4. -/
noncomputable def drawFieldLineE (velocity gamma dx dy : ℝ) : ℝ × ℝ :=
  let r := max (Real.sqrt (dx * dx + dy * dy)) 15
  let ex := dx / (r * r)
  let ey := dy / (r * r)
  if 0 < velocity ∧ 1 < gamma ∧ Real.pi / 4 < |jsRem (atan2 dy dx) Real.pi| then
    (gamma * ex, gamma * ey)
  else (ex, ey)

/-- Field-vector expression of src/unnamed/part_002 `drawElectricField`
lines 310-319: the unit direction (cos θ, sin θ), whose y component is
divided by γ when the charge moves and π/4 < |θ| < 3π/4. -/
noncomputable def part002FieldVec (velocity gamma angle : ℝ) : ℝ × ℝ :=
  let ex := Real.cos angle
  let ey := Real.sin angle
  if 0 < velocity ∧ Real.pi / 4 < |angle| ∧ |angle| < 3 * Real.pi / 4 then
    (ex, ey / gamma)
  else (ex, ey)

/-- atan2 of a point on the positive y axis is π/2. -/
lemma atan2_pos_y {y : ℝ} (hy : 0 < y) : atan2 y 0 = Real.pi / 2 := by
  unfold atan2
  rw [if_neg (lt_irrefl 0), if_pos rfl, if_pos hy]

/-- atan2 of a point on the positive x axis is 0. -/
lemma atan2_pos_x {x : ℝ} (hx : 0 < x) : atan2 0 x = 0 := by
  unfold atan2
  rw [if_pos hx, zero_div, Real.arctan_zero]

/-- The JavaScript remainder of π/2 by π is π/2. -/
lemma jsRem_pi_div_two : jsRem (Real.pi / 2) Real.pi = Real.pi / 2 := by
  unfold jsRem truncR
  have hdiv : Real.pi / 2 / Real.pi = 1 / 2 := by
    rw [div_right_comm, div_self Real.pi_ne_zero]
  rw [hdiv, if_pos (by norm_num)]
  have hfloor : ⌊(1 / 2 : ℝ)⌋ = 0 :=
    Int.floor_eq_zero_iff.mpr ⟨by norm_num, by norm_num⟩
  rw [hfloor]
  push_cast
  ring

/-- The JavaScript remainder of 0 by any b is 0. -/
lemma jsRem_zero (b : ℝ) : jsRem 0 b = 0 := by
  unfold jsRem truncR
  rw [zero_div, if_pos le_rfl, Int.floor_zero]
  push_cast
  ring

/-- The Lorentz factor at β = 0.8 is exactly 5/3. -/
lemma gammaOf_eq_five_thirds : gammaOf 0.8 = 5 / 3 := by
  unfold gammaOf
  rw [show (1 : ℝ) - 0.8 * 0.8 = (3 / 5) ^ 2 by norm_num,
    Real.sqrt_sq (by norm_num : (0 : ℝ) ≤ 3 / 5)]
  norm_num

/-- Square roots needed for the concrete field evaluations. -/
lemma sqrt_2500 : Real.sqrt ((0 : ℝ) * 0 + 50 * 50) = 50 := by
  rw [show ((0 : ℝ) * 0 + 50 * 50) = 50 ^ 2 by norm_num,
    Real.sqrt_sq (by norm_num : (0 : ℝ) ≤ 50)]

lemma sqrt_2500x : Real.sqrt ((50 : ℝ) * 50 + 0 * 0) = 50 := by
  rw [show ((50 : ℝ) * 50 + 0 * 0) = 50 ^ 2 by norm_num,
    Real.sqrt_sq (by norm_num : (0 : ℝ) ≤ 50)]

/-- C4 (evaluation at the deciding inputs): at β = 0.8 (γ = 5/3) the
fields.js drawFieldLine path leaves the parallel-axis field at its
static value and scales the perpendicular-axis field by exactly γ
(1/30 = γ·(1/50) at perpendicular offset 50); but the part_002
drawElectricField path DIVIDES the perpendicular component by γ: at the
pure perpendicular angle π/2 it yields 3/5 = (1/γ)·sin(π/2), which is
not the γ·sin(π/2) = 5/3 the claim requires. -/
theorem perpendicular_gamma_scaling :
    gammaOf 0.8 = 5 / 3 ∧
    drawFieldLineE 0.8 (5 / 3) 0 50 = (0, (5 / 3) * (1 / 50)) ∧
    drawFieldLineE 0 1 0 50 = (0, 1 / 50) ∧
    drawFieldLineE 0.8 (5 / 3) 50 0 = drawFieldLineE 0 1 50 0 ∧
    part002FieldVec 0.8 (5 / 3) (Real.pi / 2) = (0, 3 / 5) ∧
    (3 / 5 : ℝ) = (1 / (5 / 3)) * Real.sin (Real.pi / 2) ∧
    (3 / 5 : ℝ) ≠ (5 / 3) * Real.sin (Real.pi / 2) := by
  have hpi := Real.pi_pos
  have hang : Real.pi / 4 < |jsRem (atan2 50 0) Real.pi| := by
    rw [atan2_pos_y (by norm_num : (0:ℝ) < 50), jsRem_pi_div_two,
      abs_of_pos (by linarith)]
    linarith
  have hangx : ¬ (0 < (0.8:ℝ) ∧ 1 < (5/3:ℝ) ∧
      Real.pi / 4 < |jsRem (atan2 0 50) Real.pi|) := by
    intro hcontra
    have habs := hcontra.2.2
    rw [atan2_pos_x (by norm_num : (0:ℝ) < 50), jsRem_zero, abs_zero] at habs
    linarith
  have habs2 : Real.pi / 4 < |Real.pi / 2| := by
    rw [abs_of_pos (by linarith)]
    linarith
  have habs3 : |Real.pi / 2| < 3 * Real.pi / 4 := by
    rw [abs_of_pos (by linarith)]
    linarith
  refine ⟨gammaOf_eq_five_thirds, ?_, ?_, ?_, ?_, ?_, ?_⟩
  · simp only [drawFieldLineE]
    rw [sqrt_2500, if_pos ⟨by norm_num, by norm_num, hang⟩,
      max_eq_left (by norm_num)]
    norm_num
  · simp only [drawFieldLineE]
    rw [sqrt_2500, if_neg (by intro hcontra; exact lt_irrefl 0 hcontra.1),
      max_eq_left (by norm_num)]
    norm_num
  · simp only [drawFieldLineE]
    rw [sqrt_2500x, if_neg hangx,
      if_neg (by intro hcontra; exact lt_irrefl 0 hcontra.1)]
  · simp only [part002FieldVec]
    rw [if_pos ⟨by norm_num, habs2, habs3⟩, Real.cos_pi_div_two,
      Real.sin_pi_div_two]
    norm_num
  · rw [Real.sin_pi_div_two]
    norm_num
  · rw [Real.sin_pi_div_two]
    norm_num

/-! ### Streamline tracing (src/unnamed/part_000 drawFieldLineToCharge,
src/fields.js drawDipoleFieldLine) -/

/-- One Euler step of `drawFieldLineToCharge` (src/unnamed/part_000 lines
814-837): superposed q/r³ field of the source and target charges with
distances floored at 0.1, normalized when the magnitude is positive, and
advanced by step size 0.05. -/
noncomputable def fltcStep (sX sY tX tY qS qT : ℝ) (p : ℝ × ℝ) : ℝ × ℝ :=
  let dx1 := p.1 - sX
  let dy1 := p.2 - sY
  let r1 := max (Real.sqrt (dx1 * dx1 + dy1 * dy1)) 0.1
  let dx2 := p.1 - tX
  let dy2 := p.2 - tY
  let r2 := max (Real.sqrt (dx2 * dx2 + dy2 * dy2)) 0.1
  let ex := qS * dx1 / (r1 * r1 * r1) + qT * dx2 / (r2 * r2 * r2)
  let ey := qS * dy1 / (r1 * r1 * r1) + qT * dy2 / (r2 * r2 * r2)
  let mag := Real.sqrt (ex * ex + ey * ey)
  let ex2 := if 0 < mag then ex / mag else ex
  let ey2 := if 0 < mag then ey / mag else ey
  (p.1 + ex2 * 0.05, p.2 + ey2 * 0.05)

/-- Stop condition of `drawFieldLineToCharge` (src/unnamed/part_000 lines
840-842): within capture radius 0.3 of the target (sink) charge, or
outside the 12×10-unit domain |x| ≤ 6, |y| ≤ 5. -/
noncomputable def fltcStop (tX tY : ℝ) (p : ℝ × ℝ) : Prop :=
  Real.sqrt ((p.1 - tX) * (p.1 - tX) + (p.2 - tY) * (p.2 - tY)) < 0.3 ∨
  6 < |p.1| ∨ 5 < |p.2|

open Classical in
/-- Shared loop shape of the field-line tracers: at each step advance the
point, append it, and break when the stop condition holds; the fuel is
the remaining step budget. -/
noncomputable def traceLoop (step : ℝ × ℝ → ℝ × ℝ) (halt : ℝ × ℝ → Prop) :
    ℕ → ℝ × ℝ → List (ℝ × ℝ)
  | 0, _ => []
  | n + 1, p =>
    if halt (step p) then [step p]
    else step p :: traceLoop step halt n (step p)

/-- Polyline of `drawFieldLineToCharge` (src/unnamed/part_000 lines
805-846): the seed vertex followed by at most 200 Euler steps. -/
noncomputable def drawFieldLineToCharge (sX sY tX tY qS qT : ℝ) : List (ℝ × ℝ) :=
  (sX, sY) :: traceLoop (fltcStep sX sY tX tY qS qT) (fltcStop tX tY) 200 (sX, sY)

/-- One Euler step of `drawDipoleFieldLine` (src/fields.js lines
744-766): superposed dx/r² field of the dipole charges at
(width/2 ∓ separation/2, height/2) with distances floored at 15,
normalized to step size 4 when the magnitude is positive. -/
noncomputable def dipoleStep (w h sep : ℝ) (p : ℝ × ℝ) : ℝ × ℝ :=
  let dx1 := p.1 - (w / 2 - sep / 2)
  let dy1 := p.2 - h / 2
  let r1 := max (Real.sqrt (dx1 * dx1 + dy1 * dy1)) 15
  let dx2 := p.1 - (w / 2 + sep / 2)
  let dy2 := p.2 - h / 2
  let r2 := max (Real.sqrt (dx2 * dx2 + dy2 * dy2)) 15
  let ex := dx1 / (r1 * r1) - dx2 / (r2 * r2)
  let ey := dy1 / (r1 * r1) - dy2 / (r2 * r2)
  let mag := Real.sqrt (ex * ex + ey * ey)
  let ex2 := if 0 < mag then ex / mag * 4 else ex
  let ey2 := if 0 < mag then ey / mag * 4 else ey
  (p.1 + ex2, p.2 + ey2)

/-- Stop condition of `drawDipoleFieldLine` (src/fields.js lines
770-772): within capture radius 20 of the negative charge, or outside
the canvas 0 ≤ x ≤ width, 0 ≤ y ≤ height. -/
noncomputable def dipoleStop (w h sep : ℝ) (p : ℝ × ℝ) : Prop :=
  Real.sqrt ((p.1 - (w / 2 + sep / 2)) * (p.1 - (w / 2 + sep / 2)) +
    (p.2 - h / 2) * (p.2 - h / 2)) < 20 ∨
  p.1 < 0 ∨ w < p.1 ∨ p.2 < 0 ∨ h < p.2

/-- Polyline of `drawDipoleFieldLine` (src/fields.js lines 735-776) from
its first vertex (the seed offset by 20 units along the seed angle). -/
noncomputable def drawDipoleFieldLine (w h sep x0 y0 : ℝ) : List (ℝ × ℝ) :=
  (x0, y0) :: traceLoop (dipoleStep w h sep) (dipoleStop w h sep) 200 (x0, y0)

/-- The trace loop emits at most as many vertices as it has fuel. -/
lemma traceLoop_length_le (step : ℝ × ℝ → ℝ × ℝ) (halt : ℝ × ℝ → Prop) :
    ∀ (n : ℕ) (p : ℝ × ℝ), (traceLoop step halt n p).length ≤ n := by
  intro n
  induction n with
  | zero => intro p; simp [traceLoop]
  | succ n ih =>
      intro p
      simp only [traceLoop]
      split_ifs
      · simp
      · simp only [List.length_cons]
        exact Nat.succ_le_succ (ih _)

/-- Every vertex of the trace except the last was checked against the
stop condition and passed: the loop stops as soon as the condition
holds. -/
lemma traceLoop_interior (step : ℝ × ℝ → ℝ × ℝ) (halt : ℝ × ℝ → Prop) :
    ∀ (n : ℕ) (p : ℝ × ℝ), ∀ q ∈ (traceLoop step halt n p).dropLast, ¬ halt q := by
  intro n
  induction n with
  | zero =>
      intro p q hq
      simp [traceLoop] at hq
  | succ n ih =>
      intro p q hq
      simp only [traceLoop] at hq
      by_cases hstop : halt (step p)
      · rw [if_pos hstop] at hq
        simp at hq
      · rw [if_neg hstop] at hq
        rcases hrec : traceLoop step halt n (step p) with _ | ⟨b, l⟩
        · rw [hrec] at hq
          simp at hq
        · rw [hrec, List.dropLast_cons₂] at hq
          rcases List.mem_cons.mp hq with heq | hmem
          · rw [heq]
            exact hstop
          · have hint := ih (step p)
            rw [hrec] at hint
            exact hint q hmem

/-- C8: both field-line tracers terminate within the 200-step cap (at
most 201 polyline vertices including the seed), and every vertex except
the last appended one satisfies neither stop condition — the trace ends
at the first vertex that is captured by the sink charge or leaves the
domain, whichever comes first.  All coordinates are exact reals in this
embedding; every divisor in a step is floored (0.1 resp. 15) or guarded
by a positivity test, so no undefined value arises. -/
theorem trace_terminates (sX sY tX tY qS qT w h sep x0 y0 : ℝ) :
    (drawFieldLineToCharge sX sY tX tY qS qT).length ≤ 201 ∧
    List.Forall (fun p => ¬ fltcStop tX tY p)
      ((drawFieldLineToCharge sX sY tX tY qS qT).drop 1).dropLast ∧
    (drawDipoleFieldLine w h sep x0 y0).length ≤ 201 ∧
    List.Forall (fun p => ¬ dipoleStop w h sep p)
      ((drawDipoleFieldLine w h sep x0 y0).drop 1).dropLast := by
  refine ⟨?_, ?_, ?_, ?_⟩
  · unfold drawFieldLineToCharge
    rw [List.length_cons]
    exact Nat.succ_le_succ (traceLoop_length_le _ _ 200 _)
  · unfold drawFieldLineToCharge
    rw [List.drop_one, List.tail_cons, List.forall_iff_forall_mem]
    exact traceLoop_interior _ _ 200 _
  · unfold drawDipoleFieldLine
    rw [List.length_cons]
    exact Nat.succ_le_succ (traceLoop_length_le _ _ 200 _)
  · unfold drawDipoleFieldLine
    rw [List.drop_one, List.tail_cons, List.forall_iff_forall_mem]
    exact traceLoop_interior _ _ 200 _

end Spec2Proof
